import Mathlib

/-!
Verification of the decode orchestration pipeline of
src/packages/speex-wasm-decoder/src/c/decoder_wrapper.c.

The wrapper drives two external capabilities (libogg page/packet
demultiplexing and the Speex frame decoder).  Their implementations are
not among the provided sources (only their configuration headers are), so
they are modelled from the design document's interface contracts (spec
sections 4.2 and 4.3) as an abstract capability structure `OggSpeex`.
Everything the wrapper itself does (the chunked feed loop, page and packet
draining, PCM accumulation, WAV header synthesis) is embedded directly
from the C source.

Bytes are modelled as `Nat` (the value of an unsigned char), 16-bit PCM
samples as `Int` (the value of a C short), and the in-memory WAV header
struct as a Lean structure serialized field by field in the struct's
little-endian layout (the struct has no padding: its thirteen fields
occupy exactly 44 bytes).
-/

/-- Little-endian serialization of a 16-bit field (two's complement),
as the bytes of an `int16_t` stored in wasm memory. -/
def le16 (x : Int) : List Nat :=
  [(x % 65536).toNat % 256, (x % 65536).toNat / 256]

/-- Little-endian serialization of a 32-bit field (two's complement),
as the bytes of an `int32_t` stored in wasm memory. -/
def le32 (x : Int) : List Nat :=
  [(x % 4294967296).toNat % 256,
   (x % 4294967296).toNat / 256 % 256,
   (x % 4294967296).toNat / 65536 % 256,
   (x % 4294967296).toNat / 16777216 % 256]

/-- The `WavHeader` struct of decoder_wrapper.c (lines 19-33), field for
field.  The four `char [4]` tags are kept as byte lists. -/
structure WavHeader where
  chunk_id : List Nat
  chunk_size : Int
  format : List Nat
  subchunk1_id : List Nat
  subchunk1_size : Int
  audio_format : Int
  num_channels : Int
  sample_rate : Int
  byte_rate : Int
  block_align : Int
  bits_per_sample : Int
  subchunk2_id : List Nat
  subchunk2_size : Int

/-- The header `write_wav_header` (decoder_wrapper.c lines 35-56) fills in,
given the decoder-reported sample rate and the PCM byte count.  Every
field is the exact expression the C assigns ("RIFF" = 52 49 46 46,
"WAVE" = 57 41 56 45, "fmt " = 66 6D 74 20, "data" = 64 61 74 61). -/
def write_wav_header (sample_rate : Int) (pcm_data_size : Int) : WavHeader :=
  let num_channels : Int := 1
  let bits_per_sample : Int := 16
  { chunk_id := [0x52, 0x49, 0x46, 0x46]
    format := [0x57, 0x41, 0x56, 0x45]
    subchunk1_id := [0x66, 0x6D, 0x74, 0x20]
    subchunk2_id := [0x64, 0x61, 0x74, 0x61]
    subchunk1_size := 16
    audio_format := 1
    num_channels := num_channels
    sample_rate := sample_rate
    bits_per_sample := bits_per_sample
    byte_rate := sample_rate * num_channels * bits_per_sample / 8
    block_align := num_channels * bits_per_sample / 8
    subchunk2_size := pcm_data_size
    chunk_size := 36 + pcm_data_size }

/-- The 44 bytes `fwrite(&header, 1, sizeof(WavHeader), file)` emits
(decoder_wrapper.c line 55): the thirteen fields in declaration order,
little-endian, no padding. -/
def headerBytes (h : WavHeader) : List Nat :=
  h.chunk_id ++ le32 h.chunk_size ++ h.format ++
  h.subchunk1_id ++ le32 h.subchunk1_size ++ le16 h.audio_format ++
  le16 h.num_channels ++ le32 h.sample_rate ++ le32 h.byte_rate ++
  le16 h.block_align ++ le16 h.bits_per_sample ++
  h.subchunk2_id ++ le32 h.subchunk2_size

theorem le16_length (x : Int) : (le16 x).length = 2 := rfl

theorem le32_length (x : Int) : (le32 x).length = 4 := rfl

/-- The serialized header produced by `write_wav_header` is exactly 44
bytes, matching `sizeof(WavHeader)`. -/
theorem headerBytes_write_length (sr n : Int) :
    (headerBytes (write_wav_header sr n)).length = 44 := by
  simp [headerBytes, write_wav_header, le16, le32]

/-- Modelled from the spec: the two external capabilities the wrapper
drives, whose implementations (libogg, libspeex) are not among the
provided sources.  Spec section 4.2 specifies the Packet/Page
Demultiplexer (`supply` / `nextPage` / `feedPage` / `nextPacket`: pages
are extracted FIFO from the buffered bytes, packets are pulled in order
from the pages fed in) and section 4.3 the Frame Decoder Adapter (one
packet's payload to one fixed-size PCM frame or a failure signal, with
private evolving state; frame size and sample rate fixed for the call's
lifetime, queried at initialization).  `Page`, `Pkt`, `S`
(ogg_stream_state), `D` (decoder state plus SpeexBits) are abstract.
The Prop fields are the interface contracts the spec states:

* `pageout_consumes`: an extracted page is consumed from the front of the
  synchronization buffer, leaving strictly fewer buffered bytes.
* `pageout_extends`: pages are self-delimited units recovered from the
  buffered byte sequence, so bytes supplied after a complete page do not
  change that page or what follows it (spec 4.2: `nextPage` either
  reports insufficient data, in which case the caller supplies more bytes
  and retries, or yields the next complete page of the buffered stream).
* `packetout_consumes`: pulling a packet strictly shrinks the pending
  packet-reconstruction state (a measure witnesses it), so finitely many
  packets come out of finitely many fed pages.
* `decode_frame_size`: a successful decode yields a frame of exactly the
  configured frame size (spec 4.3). -/
structure OggSpeex where
  Page : Type
  Pkt : Type
  S : Type
  D : Type
  pageout : List Nat → Option (Page × List Nat)
  serialno : Page → Int
  stream_init : Int → S
  pagein : S → Page → S
  packetout : S → Option (Pkt × S)
  streamMeasure : S → Nat
  decoder_init : D
  frame_size : Nat
  sample_rate : Int
  decode : D → Pkt → D × Option (List Int)
  pageout_consumes : ∀ buf pg rest, pageout buf = some (pg, rest) →
    rest.length < buf.length
  pageout_extends : ∀ buf pg rest extra, pageout buf = some (pg, rest) →
    pageout (buf ++ extra) = some (pg, rest ++ extra)
  packetout_consumes : ∀ s p s2, packetout s = some (p, s2) →
    streamMeasure s2 < streamMeasure s
  decode_frame_size : ∀ d p d2 f, decode d p = (d2, some f) →
    f.length = frame_size

/-- One observable event of the decode loop: a page submitted to the
logical stream, or a packet handed to the frame decoder together with the
decoder's verdict (the PCM frame on success, `none` on failure). -/
inductive Ev (L : OggSpeex) where
  | page : L.Page → Ev L
  | pkt : L.Pkt → Option (List Int) → Ev L

/-- The PCM frame an event contributed, if any. -/
def frameOf {L : OggSpeex} : Ev L → Option (List Int)
  | Ev.page _ => none
  | Ev.pkt _ r => r

/-- The PCM samples accumulated by a trace of events, in order: the
concatenation of the successful frames (the memory-stream `fwrite` of
decoder_wrapper.c line 123). -/
def pcmOf {L : OggSpeex} (evs : List (Ev L)) : List Int :=
  evs.foldr (fun e acc => (frameOf e).getD [] ++ acc) []

/-- How many packets of a trace decoded successfully. -/
def numOk {L : OggSpeex} (evs : List (Ev L)) : Nat :=
  evs.foldr (fun e n => if (frameOf e).isSome then n + 1 else n) 0

/-- Every successful frame of the trace has the decoder's frame size. -/
def framesOk (L : OggSpeex) (evs : List (Ev L)) : Prop :=
  ∀ e ∈ evs, ∀ f, frameOf e = some f → f.length = L.frame_size

/-- The bytes of a sample list as written to the PCM memory stream:
each 16-bit sample little-endian (`fwrite(output_frame, sizeof(short),
frame_size, pcm_stream)`). -/
def samplesBytes (l : List Int) : List Nat :=
  l.foldr (fun x acc => le16 x ++ acc) []

theorem samplesBytes_length (l : List Int) :
    (samplesBytes l).length = 2 * l.length := by
  induction l with
  | nil => rfl
  | cons x xs ih => simp [samplesBytes, le16] at ih ⊢; omega

theorem pcmOf_nil (L : OggSpeex) : pcmOf ([] : List (Ev L)) = [] := rfl

theorem pcmOf_cons {L : OggSpeex} (e : Ev L) (evs : List (Ev L)) :
    pcmOf (e :: evs) = (frameOf e).getD [] ++ pcmOf evs := rfl

theorem pcmOf_append {L : OggSpeex} (a b : List (Ev L)) :
    pcmOf (a ++ b) = pcmOf a ++ pcmOf b := by
  induction a with
  | nil => rfl
  | cons e a ih => simp [pcmOf_cons, ih]

/-- Length of the accumulated PCM of a size-respecting trace:
frame size times the number of successful packets. -/
theorem pcmOf_length {L : OggSpeex} (evs : List (Ev L))
    (h : framesOk L evs) :
    (pcmOf evs).length = L.frame_size * numOk evs := by
  induction evs with
  | nil => rfl
  | cons e evs ih =>
    have he : ∀ f, frameOf e = some f → f.length = L.frame_size :=
      h e (List.mem_cons_self e evs)
    have ht : framesOk L evs := fun x hx => h x (List.mem_cons_of_mem e hx)
    cases hf : frameOf e with
    | none => simp [pcmOf_cons, numOk, hf, ih ht]
    | some f =>
      have := he f hf
      simp [pcmOf_cons, numOk, hf, ih ht, this]
      ring

/-- The inner packet loop of decoder_wrapper.c (lines 117-126):
`while (ogg_stream_packetout(&os, &op) == 1)` pull one packet, hand its
payload to the frame decoder (`speex_bits_read_from` +
`speex_decode_int`), and append the frame to the PCM stream exactly when
the decode returned 0.  Returns the stream state and decoder state after
the drain together with the packet events in order. -/
def drainPackets (L : OggSpeex) (os : L.S) (d : L.D) :
    L.S × L.D × List (Ev L) :=
  match h : L.packetout os with
  | none => (os, d, [])
  | some (p, os2) =>
    let r := L.decode d p
    let rest := drainPackets L os2 r.1
    (rest.1, rest.2.1, Ev.pkt p r.2 :: rest.2.2)
termination_by L.streamMeasure os
decreasing_by exact L.packetout_consumes os p os2 h

theorem drainPackets_framesOk (L : OggSpeex) :
    ∀ n (os : L.S) (d : L.D), L.streamMeasure os ≤ n →
      framesOk L (drainPackets L os d).2.2 := by
  intro n
  induction n with
  | zero =>
    intro os d hn
    rw [drainPackets.eq_def]
    split
    · intro e he; simp at he
    · next p os2 h =>
      exact absurd (L.packetout_consumes os p os2 h) (by omega)
  | succ n ih =>
    intro os d hn
    rw [drainPackets.eq_def]
    split
    · intro e he; simp at he
    · next p os2 h =>
      have hlt := L.packetout_consumes os p os2 h
      intro e he f hf
      rcases List.mem_cons.mp he with he | he
      · subst he
        simp only [frameOf] at hf
        apply L.decode_frame_size d p (L.decode d p).1 f
        rw [← hf]
      · exact ih os2 (L.decode d p).1 (by omega) e he f hf

/-- The state of the page-drain loop and of the orchestrator after it:
the remaining synchronization-buffer bytes, the lazily initialized
logical-stream state (`stream_init` flag plus `os` in the C), the decoder
state, and the events observed. -/
structure DrainOut (L : OggSpeex) where
  buf : List Nat
  os : Option L.S
  d : L.D
  evs : List (Ev L)

/-- The stream state a page is submitted to: the existing one, or — for
the very first page — a stream freshly bound to that page's serial number
(`ogg_stream_init(&os, ogg_page_serialno(&og))`, decoder_wrapper.c
lines 108-111). -/
def streamAt (L : OggSpeex) (os : Option L.S) (pg : L.Page) : L.S :=
  match os with
  | none => L.stream_init (L.serialno pg)
  | some s => s

/-- Processing of one extracted page (decoder_wrapper.c lines 108-126):
initialize the stream if needed, `ogg_stream_pagein`, then drain the
completed packets through the decoder.  Returns the stream state, the
decoder state and the events (the page submission followed by its
packets). -/
def pageStep (L : OggSpeex) (pg : L.Page) (os : Option L.S) (d : L.D) :
    L.S × L.D × List (Ev L) :=
  let pr := drainPackets L (L.pagein (streamAt L os pg) pg) d
  (pr.1, pr.2.1, Ev.page pg :: pr.2.2)

/-- The page loop of decoder_wrapper.c (lines 107-127):
`while (ogg_sync_pageout(&oy, &og) == 1)` extract one page, process it
with `pageStep`, repeat until no complete page is buffered.  Returns the
leftover buffered bytes, the stream and decoder state, and the events in
order. -/
def drainPages (L : OggSpeex) (buf : List Nat) (os : Option L.S) (d : L.D) :
    DrainOut L :=
  match h : L.pageout buf with
  | none => ⟨buf, os, d, []⟩
  | some (pg, rest) =>
    let st := pageStep L pg os d
    let r := drainPages L rest (some st.1) st.2.1
    ⟨r.buf, r.os, r.d, st.2.2 ++ r.evs⟩
termination_by buf.length
decreasing_by exact L.pageout_consumes buf pg rest h

/-- Unfolding of `drainPages` when no complete page is buffered. -/
theorem drainPages_none (L : OggSpeex) (buf : List Nat) (os : Option L.S)
    (d : L.D) (h : L.pageout buf = none) :
    drainPages L buf os d = ⟨buf, os, d, []⟩ := by
  rw [drainPages.eq_def]
  split
  · rfl
  · next pg rest h2 => rw [h] at h2; cases h2

/-- Unfolding of `drainPages` when a page is extracted. -/
theorem drainPages_some (L : OggSpeex) (buf : List Nat) (os : Option L.S)
    (d : L.D) (pg : L.Page) (rest : List Nat)
    (h : L.pageout buf = some (pg, rest)) :
    drainPages L buf os d =
      ⟨(drainPages L rest (some (pageStep L pg os d).1)
          (pageStep L pg os d).2.1).buf,
       (drainPages L rest (some (pageStep L pg os d).1)
          (pageStep L pg os d).2.1).os,
       (drainPages L rest (some (pageStep L pg os d).1)
          (pageStep L pg os d).2.1).d,
       (pageStep L pg os d).2.2 ++
         (drainPages L rest (some (pageStep L pg os d).1)
           (pageStep L pg os d).2.1).evs⟩ := by
  conv_lhs => rw [drainPages.eq_def]
  split
  · next h2 => rw [h] at h2; cases h2
  · next pg2 rest2 h2 =>
    rw [h] at h2
    cases h2
    rfl

/-- Draining never grows the synchronization buffer. -/
theorem drainPages_buf_le_aux (L : OggSpeex) :
    ∀ n (buf : List Nat) (os : Option L.S) (d : L.D), buf.length ≤ n →
      (drainPages L buf os d).buf.length ≤ buf.length := by
  intro n
  induction n with
  | zero =>
    intro buf os d hn
    cases h : L.pageout buf with
    | none => rw [drainPages_none L buf os d h]
    | some pr =>
      exact absurd (L.pageout_consumes buf pr.1 pr.2 (by rw [h])) (by omega)
  | succ n ih =>
    intro buf os d hn
    cases h : L.pageout buf with
    | none => rw [drainPages_none L buf os d h]
    | some pr =>
      obtain ⟨pg, rest⟩ := pr
      have hlt := L.pageout_consumes buf pg rest h
      rw [drainPages_some L buf os d pg rest h]
      have := ih rest (some (pageStep L pg os d).1) (pageStep L pg os d).2.1
        (by omega)
      exact le_trans this (le_of_lt hlt)

theorem drainPages_buf_le (L : OggSpeex) (buf : List Nat) (os : Option L.S)
    (d : L.D) : (drainPages L buf os d).buf.length ≤ buf.length :=
  drainPages_buf_le_aux L buf.length buf os d le_rfl

/-- After a drain, no further complete page can be extracted from the
leftover bytes: the page loop exits exactly when `ogg_sync_pageout`
stops returning 1. -/
theorem drainPages_post_aux (L : OggSpeex) :
    ∀ n (buf : List Nat) (os : Option L.S) (d : L.D), buf.length ≤ n →
      L.pageout (drainPages L buf os d).buf = none := by
  intro n
  induction n with
  | zero =>
    intro buf os d hn
    cases h : L.pageout buf with
    | none => rw [drainPages_none L buf os d h]; exact h
    | some pr =>
      exact absurd (L.pageout_consumes buf pr.1 pr.2 (by rw [h])) (by omega)
  | succ n ih =>
    intro buf os d hn
    cases h : L.pageout buf with
    | none => rw [drainPages_none L buf os d h]; exact h
    | some pr =>
      obtain ⟨pg, rest⟩ := pr
      have hlt := L.pageout_consumes buf pg rest h
      rw [drainPages_some L buf os d pg rest h]
      exact ih rest (some (pageStep L pg os d).1) (pageStep L pg os d).2.1
        (by omega)

theorem drainPages_post (L : OggSpeex) (buf : List Nat) (os : Option L.S)
    (d : L.D) : L.pageout (drainPages L buf os d).buf = none :=
  drainPages_post_aux L buf.length buf os d le_rfl

/-- All frames a drain produces have the decoder's frame size. -/
theorem drainPages_framesOk_aux (L : OggSpeex) :
    ∀ n (buf : List Nat) (os : Option L.S) (d : L.D), buf.length ≤ n →
      framesOk L (drainPages L buf os d).evs := by
  intro n
  induction n with
  | zero =>
    intro buf os d hn
    cases h : L.pageout buf with
    | none => rw [drainPages_none L buf os d h]; intro e he; simp at he
    | some pr =>
      exact absurd (L.pageout_consumes buf pr.1 pr.2 (by rw [h])) (by omega)
  | succ n ih =>
    intro buf os d hn
    cases h : L.pageout buf with
    | none => rw [drainPages_none L buf os d h]; intro e he; simp at he
    | some pr =>
      obtain ⟨pg, rest⟩ := pr
      have hlt := L.pageout_consumes buf pg rest h
      rw [drainPages_some L buf os d pg rest h]
      intro e he f hf
      simp only [pageStep, List.cons_append, List.mem_cons,
        List.mem_append] at he
      rcases he with he | he | he
      · subst he; simp [frameOf] at hf
      · exact drainPackets_framesOk L
          (L.streamMeasure (L.pagein (streamAt L os pg) pg))
          (L.pagein (streamAt L os pg) pg) d le_rfl e he f hf
      · exact ih rest (some (pageStep L pg os d).1) (pageStep L pg os d).2.1
          (by omega) e he f hf

theorem drainPages_framesOk (L : OggSpeex) (buf : List Nat)
    (os : Option L.S) (d : L.D) : framesOk L (drainPages L buf os d).evs :=
  drainPages_framesOk_aux L buf.length buf os d le_rfl

/-- Draining after a further byte supply: composition of drains.  Because
pages are self-delimited units extracted FIFO from the buffered bytes
(`pageout_extends`), draining `buf ++ extra` is draining `buf`, then
draining the leftover with `extra` appended.  This is the lemma that
makes the chunked feed of the C loop equivalent to feeding the whole
input at once. -/
theorem drainPages_append_aux (L : OggSpeex) :
    ∀ n (buf : List Nat), buf.length ≤ n →
      ∀ (extra : List Nat) (os : Option L.S) (d : L.D),
      drainPages L (buf ++ extra) os d =
        ⟨(drainPages L ((drainPages L buf os d).buf ++ extra)
            (drainPages L buf os d).os (drainPages L buf os d).d).buf,
         (drainPages L ((drainPages L buf os d).buf ++ extra)
            (drainPages L buf os d).os (drainPages L buf os d).d).os,
         (drainPages L ((drainPages L buf os d).buf ++ extra)
            (drainPages L buf os d).os (drainPages L buf os d).d).d,
         (drainPages L buf os d).evs ++
           (drainPages L ((drainPages L buf os d).buf ++ extra)
             (drainPages L buf os d).os (drainPages L buf os d).d).evs⟩ := by
  intro n
  induction n with
  | zero =>
    intro buf hn extra os d
    cases h : L.pageout buf with
    | none => rw [drainPages_none L buf os d h]; simp
    | some pr =>
      exact absurd (L.pageout_consumes buf pr.1 pr.2 (by rw [h])) (by omega)
  | succ n ih =>
    intro buf hn extra os d
    cases h : L.pageout buf with
    | none => rw [drainPages_none L buf os d h]; simp
    | some pr =>
      obtain ⟨pg, rest⟩ := pr
      have hlt := L.pageout_consumes buf pg rest h
      have h2 : L.pageout (buf ++ extra) = some (pg, rest ++ extra) :=
        L.pageout_extends buf pg rest extra h
      rw [drainPages_some L (buf ++ extra) os d pg (rest ++ extra) h2]
      rw [drainPages_some L buf os d pg rest h]
      rw [ih rest (by omega) extra (some (pageStep L pg os d).1)
        (pageStep L pg os d).2.1]
      simp [List.append_assoc]

/-- A convenient wrapper around `drainPages_append_aux`. -/
theorem drainPages_append (L : OggSpeex) (buf extra : List Nat)
    (os : Option L.S) (d : L.D) :
    drainPages L (buf ++ extra) os d =
      ⟨(drainPages L ((drainPages L buf os d).buf ++ extra)
          (drainPages L buf os d).os (drainPages L buf os d).d).buf,
       (drainPages L ((drainPages L buf os d).buf ++ extra)
          (drainPages L buf os d).os (drainPages L buf os d).d).os,
       (drainPages L ((drainPages L buf os d).buf ++ extra)
          (drainPages L buf os d).os (drainPages L buf os d).d).d,
       (drainPages L buf os d).evs ++
         (drainPages L ((drainPages L buf os d).buf ++ extra)
           (drainPages L buf os d).os (drainPages L buf os d).d).evs⟩ :=
  drainPages_append_aux L buf.length buf le_rfl extra os d

/-- The main decode loop of decoder_wrapper.c (lines 89-128), faithful to
the C control flow, with the chunk size (`buffer_size`, 4096 in the
source) kept as a parameter:

* copy the next `min(remaining, chunkSize)` input bytes into the
  synchronization buffer (`ogg_sync_buffer` + `memcpy` +
  `ogg_sync_wrote`, lines 90-99);
* if no byte was copied, probe `ogg_sync_pageout` (line 102, reached only
  then because `&&` short-circuits): when it yields no page the loop
  breaks; when it does yield one, that page is consumed but the C
  overwrites it in the inner `while` header before processing it, so the
  model continues draining from the leftover bytes without an event for
  it (the equivalence theorems below show this branch is unreachable);
* otherwise drain all currently extractable pages and their packets
  (lines 107-127) and iterate. -/
def decodeLoop (L : OggSpeex) (input : List Nat) (chunkSize : Nat)
    (bytesRead : Nat) (buf : List Nat) (os : Option L.S) (d : L.D) :
    DrainOut L :=
  if h0 : min (input.length - bytesRead) chunkSize = 0 then
    match h : L.pageout
        (buf ++ (input.drop bytesRead).take
          (min (input.length - bytesRead) chunkSize)) with
    | none =>
      ⟨buf ++ (input.drop bytesRead).take
          (min (input.length - bytesRead) chunkSize), os, d, []⟩
    | some (pg, rest) =>
      let r := drainPages L rest os d
      let r2 := decodeLoop L input chunkSize bytesRead r.buf r.os r.d
      ⟨r2.buf, r2.os, r2.d, r.evs ++ r2.evs⟩
  else
    let r := drainPages L
      (buf ++ (input.drop bytesRead).take
        (min (input.length - bytesRead) chunkSize)) os d
    let r2 := decodeLoop L input chunkSize
      (bytesRead + min (input.length - bytesRead) chunkSize) r.buf r.os r.d
    ⟨r2.buf, r2.os, r2.d, r.evs ++ r2.evs⟩
termination_by 2 * (input.length - bytesRead) + buf.length
decreasing_by
· have h1 := drainPages_buf_le L rest os d
  have h2 := L.pageout_consumes _ pg rest h
  simp only [h0, List.take_zero, List.append_nil] at h2
  omega
· have h1 := drainPages_buf_le L
    (buf ++ (input.drop bytesRead).take
      (min (input.length - bytesRead) chunkSize)) os d
  have h2 : ((input.drop bytesRead).take
      (min (input.length - bytesRead) chunkSize)).length =
      min (min (input.length - bytesRead) chunkSize)
        (input.length - bytesRead) := by
    simp [List.length_take, List.length_drop]
  simp only [List.length_append] at h1
  omega

/-- Unfolding of `decodeLoop` at the break: input exhausted and no
complete page buffered (`bytes_to_copy == 0 && ogg_sync_pageout != 1`,
decoder_wrapper.c line 102). -/
theorem decodeLoop_break (L : OggSpeex) (input : List Nat) (c br : Nat)
    (buf : List Nat) (os : Option L.S) (d : L.D)
    (h0 : min (input.length - br) c = 0) (hb : L.pageout buf = none) :
    decodeLoop L input c br buf os d = ⟨buf, os, d, []⟩ := by
  rw [decodeLoop.eq_def, dif_pos h0]
  split
  · simp [h0]
  · next pg rest h =>
    rw [h0, List.take_zero, List.append_nil] at h
    rw [hb] at h
    cases h

/-- Unfolding of `decodeLoop` when bytes remain to copy: feed one chunk,
drain, iterate. -/
theorem decodeLoop_feed (L : OggSpeex) (input : List Nat) (c br : Nat)
    (buf : List Nat) (os : Option L.S) (d : L.D)
    (h0 : min (input.length - br) c ≠ 0) :
    decodeLoop L input c br buf os d =
      ⟨(decodeLoop L input c (br + min (input.length - br) c)
          (drainPages L
            (buf ++ (input.drop br).take (min (input.length - br) c)) os d).buf
          (drainPages L
            (buf ++ (input.drop br).take (min (input.length - br) c)) os d).os
          (drainPages L
            (buf ++ (input.drop br).take (min (input.length - br) c)) os d).d).buf,
       (decodeLoop L input c (br + min (input.length - br) c)
          (drainPages L
            (buf ++ (input.drop br).take (min (input.length - br) c)) os d).buf
          (drainPages L
            (buf ++ (input.drop br).take (min (input.length - br) c)) os d).os
          (drainPages L
            (buf ++ (input.drop br).take (min (input.length - br) c)) os d).d).os,
       (decodeLoop L input c (br + min (input.length - br) c)
          (drainPages L
            (buf ++ (input.drop br).take (min (input.length - br) c)) os d).buf
          (drainPages L
            (buf ++ (input.drop br).take (min (input.length - br) c)) os d).os
          (drainPages L
            (buf ++ (input.drop br).take (min (input.length - br) c)) os d).d).d,
       (drainPages L
         (buf ++ (input.drop br).take (min (input.length - br) c)) os d).evs ++
       (decodeLoop L input c (br + min (input.length - br) c)
          (drainPages L
            (buf ++ (input.drop br).take (min (input.length - br) c)) os d).buf
          (drainPages L
            (buf ++ (input.drop br).take (min (input.length - br) c)) os d).os
          (drainPages L
            (buf ++ (input.drop br).take (min (input.length - br) c)) os d).d).evs⟩ := by
  rw [decodeLoop.eq_def, dif_neg h0]

/-- The chunked feed loop, started from any state whose buffered bytes
hold no complete page, behaves exactly like supplying all the unread
input bytes at once and draining them: the chunk size (as long as it is
positive) is an internal buffering detail.  In particular the break
probe of line 102 never discards a page: at the moment the input is
exhausted the previous drain already left the buffer without a complete
page. -/
theorem decodeLoop_eq_aux (L : OggSpeex) (input : List Nat) (c : Nat)
    (hc : 0 < c) :
    ∀ n br (buf : List Nat) (os : Option L.S) (d : L.D),
      input.length - br ≤ n → L.pageout buf = none →
      decodeLoop L input c br buf os d =
        drainPages L (buf ++ input.drop br) os d := by
  intro n
  induction n with
  | zero =>
    intro br buf os d hn hb
    have h0 : min (input.length - br) c = 0 := by omega
    rw [decodeLoop_break L input c br buf os d h0 hb]
    have hd : input.drop br = ([] : List Nat) :=
      List.drop_eq_nil_of_le (by omega)
    rw [hd, List.append_nil, drainPages_none L buf os d hb]
  | succ n ih =>
    intro br buf os d hn hb
    by_cases hr : input.length - br = 0
    · have h0 : min (input.length - br) c = 0 := by omega
      rw [decodeLoop_break L input c br buf os d h0 hb]
      have hd : input.drop br = ([] : List Nat) :=
        List.drop_eq_nil_of_le (by omega)
      rw [hd, List.append_nil, drainPages_none L buf os d hb]
    · have h0 : min (input.length - br) c ≠ 0 := by omega
      have hsplit : buf ++ input.drop br =
          (buf ++ (input.drop br).take (min (input.length - br) c)) ++
            input.drop (br + min (input.length - br) c) := by
        rw [List.append_assoc]
        congr 1
        conv_lhs => rw [← List.take_append_drop
          (min (input.length - br) c) (input.drop br)]
        congr 1
        rw [List.drop_drop, Nat.add_comm]
      rw [decodeLoop_feed L input c br buf os d h0]
      rw [ih (br + min (input.length - br) c)
        (drainPages L
          (buf ++ (input.drop br).take (min (input.length - br) c)) os d).buf
        (drainPages L
          (buf ++ (input.drop br).take (min (input.length - br) c)) os d).os
        (drainPages L
          (buf ++ (input.drop br).take (min (input.length - br) c)) os d).d
        (by omega)
        (drainPages_post L
          (buf ++ (input.drop br).take (min (input.length - br) c)) os d)]
      rw [hsplit, drainPages_append L
        (buf ++ (input.drop br).take (min (input.length - br) c))
        (input.drop (br + min (input.length - br) c)) os d]

/-- No page can be extracted from an empty synchronization buffer
(extracting one would have to consume at least one byte). -/
theorem pageout_nil (L : OggSpeex) : L.pageout [] = none := by
  cases h : L.pageout ([] : List Nat) with
  | none => rfl
  | some pr =>
    exact absurd (L.pageout_consumes [] pr.1 pr.2 (by rw [h])) (by simp)

/-- The event trace of the whole decode loop of decoder_wrapper.c
(lines 89-128) on the given input, with the source's chunk size kept as a
parameter. -/
def decodeChunkedEvents (L : OggSpeex) (chunkSize : Nat)
    (input : List Nat) : List (Ev L) :=
  (decodeLoop L input chunkSize 0 [] none L.decoder_init).evs

/-- The event trace of `decode_spx_to_wav` (chunk size 4096, line 90). -/
def decodeEvents (L : OggSpeex) (input : List Nat) : List (Ev L) :=
  decodeChunkedEvents L 4096 input

/-- The reference demultiplexer semantics: supply every input byte at
once, then repeatedly extract a page, submit it, and pull all completed
packets, until no complete page remains.  Its trace is the "packets in
the exact order their constituent bits appeared in the input" sequence
of spec section 4.2. -/
def canonEvents (L : OggSpeex) (input : List Nat) : List (Ev L) :=
  (drainPages L input none L.decoder_init).evs

/-- The output of the decode pipeline with the chunk size as a
parameter: the synthesized 44-byte header followed by the accumulated
PCM bytes (decoder_wrapper.c lines 130-151). -/
def decodeChunked (L : OggSpeex) (chunkSize : Nat) (input : List Nat) :
    List Nat :=
  let pcmBytes := samplesBytes (pcmOf (decodeChunkedEvents L chunkSize input))
  headerBytes (write_wav_header L.sample_rate (Int.ofNat pcmBytes.length)) ++
    pcmBytes

/-- The full embedded entry point `decode_spx_to_wav` (decoder_wrapper.c
lines 59-152): run the main loop with the source's 4096-byte chunks over
the input, then return the WAV header synthesized from the
decoder-reported sample rate and the accumulated PCM byte count,
followed by the PCM bytes.  The returned `wav_size` out-parameter is the
length of this list. -/
def decode_spx_to_wav (L : OggSpeex) (input : List Nat) : List Nat :=
  decodeChunked L 4096 input

/-- The PCM payload of the returned buffer. -/
def outputPcm (L : OggSpeex) (input : List Nat) : List Nat :=
  samplesBytes (pcmOf (decodeEvents L input))

/-- The header record of the returned buffer. -/
def outputHeader (L : OggSpeex) (input : List Nat) : WavHeader :=
  write_wav_header L.sample_rate (Int.ofNat (outputPcm L input).length)

theorem decode_spx_to_wav_eq_parts (L : OggSpeex) (input : List Nat) :
    decode_spx_to_wav L input =
      headerBytes (outputHeader L input) ++ outputPcm L input := rfl

/-- For any positive chunk size the loop's trace is the canonical
whole-input trace. -/
theorem decodeChunkedEvents_canon (L : OggSpeex) (chunkSize : Nat)
    (hc : 0 < chunkSize) (input : List Nat) :
    decodeChunkedEvents L chunkSize input = canonEvents L input := by
  unfold decodeChunkedEvents canonEvents
  rw [decodeLoop_eq_aux L input chunkSize hc input.length 0 [] none
    L.decoder_init (by omega) (pageout_nil L)]
  rw [List.drop_zero, List.nil_append]

theorem decodeEvents_canon (L : OggSpeex) (input : List Nat) :
    decodeEvents L input = canonEvents L input :=
  decodeChunkedEvents_canon L 4096 (by omega) input

/-- A concrete instance of the capability interface (a demultiplexer
that never completes a page and a decoder that always fails),
inhabiting `OggSpeex` and showing that the interface contracts are
satisfiable.  Frame size 320 and sample rate 16000 are the wideband
values the spec's scenario section quotes. -/
def trivLib : OggSpeex where
  Page := Unit
  Pkt := Unit
  S := Unit
  D := Unit
  pageout := fun _ => none
  serialno := fun _ => 0
  stream_init := fun _ => ()
  pagein := fun s _ => s
  packetout := fun _ => none
  streamMeasure := fun _ => 0
  decoder_init := ()
  frame_size := 320
  sample_rate := 16000
  decode := fun _ _ => ((), none)
  pageout_consumes := by intro buf pg rest h; cases h
  pageout_extends := by intro buf pg rest extra h; cases h
  packetout_consumes := by intro s p s2 h; cases h
  decode_frame_size := by intro d p d2 f h; cases h

/-- A concrete instance whose stream state counts pending packets and
whose decoder always fails: used to exhibit a packet whose decode fails
concretely. -/
def oneLib : OggSpeex where
  Page := Unit
  Pkt := Unit
  S := Nat
  D := Unit
  pageout := fun _ => none
  serialno := fun _ => 0
  stream_init := fun _ => 0
  pagein := fun s _ => s
  packetout := fun s =>
    match s with
    | 0 => none
    | n + 1 => some ((), n)
  streamMeasure := fun s => s
  decoder_init := ()
  frame_size := 320
  sample_rate := 16000
  decode := fun _ _ => ((), none)
  pageout_consumes := by intro buf pg rest h; cases h
  pageout_extends := by intro buf pg rest extra h; cases h
  packetout_consumes := by
    intro s p s2 h
    cases s with
    | zero => cases h
    | succ n =>
      simp only [Option.some.injEq, Prod.mk.injEq] at h
      obtain ⟨-, rfl⟩ := h
      exact Nat.lt_succ_self n
  decode_frame_size := by intro d p d2 f h; cases h

theorem pcmOf_eq_nil {L : OggSpeex} (evs : List (Ev L))
    (h : ∀ e ∈ evs, frameOf e = none) : pcmOf evs = [] := by
  induction evs with
  | nil => rfl
  | cons e evs ih =>
    rw [pcmOf_cons, h e (List.mem_cons_self e evs)]
    exact ih fun x hx => h x (List.mem_cons_of_mem e hx)

/-- C1: every output buffer `decode_spx_to_wav` produces is the 44-byte
header followed by the PCM payload, and that header satisfies: overall
chunk size = 36 + PCM byte length, byte rate = sampleRate * 2, block
alignment = 2, bits per sample = 16, channel count = 1, audio format
code = 1, format-subchunk size = 16, data-subchunk size = PCM byte
length. -/
theorem wav_header_fields (L : OggSpeex) (input : List Nat) :
    decode_spx_to_wav L input =
      headerBytes (outputHeader L input) ++ outputPcm L input
    ∧ (headerBytes (outputHeader L input)).length = 44
    ∧ (outputHeader L input).chunk_size =
        36 + Int.ofNat (outputPcm L input).length
    ∧ (outputHeader L input).byte_rate = L.sample_rate * 2
    ∧ (outputHeader L input).block_align = 2
    ∧ (outputHeader L input).bits_per_sample = 16
    ∧ (outputHeader L input).num_channels = 1
    ∧ (outputHeader L input).audio_format = 1
    ∧ (outputHeader L input).subchunk1_size = 16
    ∧ (outputHeader L input).subchunk2_size =
        Int.ofNat (outputPcm L input).length := by
  refine ⟨rfl, headerBytes_write_length _ _, ?_, ?_, ?_, ?_, ?_, ?_, ?_, ?_⟩
    <;> simp [outputHeader, write_wav_header]
    <;> omega

/-- C2: the PCM byte count `decode_spx_to_wav` accumulates equals
(number of packets the frame decoder decoded successfully) x frame size
x 2 bytes per sample.  In particular it is a multiple of
frame size x 2, and 0 when no packet decodes successfully. -/
theorem pcm_byte_count_eq (L : OggSpeex) (input : List Nat) :
    (outputPcm L input).length =
      numOk (decodeEvents L input) * L.frame_size * 2 := by
  have hfo : framesOk L (decodeEvents L input) := by
    rw [decodeEvents_canon]
    exact drainPages_framesOk L input none L.decoder_init
  rw [outputPcm, samplesBytes_length, pcmOf_length (decodeEvents L input) hfo]
  ring

/-- C3: on a zero-byte input the returned buffer is exactly the 44-byte
canonical header with data-subchunk size 0 and no PCM payload. -/
theorem empty_input_header_only (L : OggSpeex) :
    decode_spx_to_wav L [] = headerBytes (write_wav_header L.sample_rate 0)
    ∧ (decode_spx_to_wav L []).length = 44 := by
  have hev : decodeEvents L [] = [] := by
    rw [decodeEvents_canon]
    unfold canonEvents
    rw [drainPages_none L [] none L.decoder_init (pageout_nil L)]
  have hpcm : outputPcm L [] = [] := by rw [outputPcm, hev]; rfl
  constructor
  · rw [decode_spx_to_wav_eq_parts, hpcm, List.append_nil, outputHeader, hpcm]
    rfl
  · rw [decode_spx_to_wav_eq_parts, hpcm, List.append_nil, outputHeader, hpcm]
    exact headerBytes_write_length _ _

/-- C4: when a packet's frame decode fails (`speex_decode_int` nonzero,
decoder_wrapper.c lines 122-124), the pipeline records the failure and
continues from the successor stream and decoder state exactly as if the
packet had been skipped: the trace is the failed event followed by the
drain of the remaining packets, the failed event contributes no PCM
byte, and no error value exists in the result. -/
theorem failed_packet_skipped (L : OggSpeex) (os os2 : L.S) (d d2 : L.D)
    (p : L.Pkt)
    (h1 : L.packetout os = some (p, os2))
    (h2 : L.decode d p = (d2, none)) :
    drainPackets L os d =
      ((drainPackets L os2 d2).1, (drainPackets L os2 d2).2.1,
        Ev.pkt p none :: (drainPackets L os2 d2).2.2)
    ∧ pcmOf (Ev.pkt p none :: (drainPackets L os2 d2).2.2) =
        pcmOf (drainPackets L os2 d2).2.2 := by
  constructor
  · rw [drainPackets.eq_def]
    split
    · next h => rw [h1] at h; cases h
    · next p2 os3 h =>
      rw [h1] at h
      cases h
      simp [h2]
  · rfl

/-- Witness for C4: in `oneLib` the stream state 1 yields one packet,
whose decode fails; the drain skips it and continues from state 0. -/
theorem failed_packet_skipped_witness :
    oneLib.packetout (1 : Nat) = some ((), (0 : Nat)) ∧
    oneLib.decode () () = ((), none) ∧
    (drainPackets oneLib (1 : Nat) () =
      ((drainPackets oneLib (0 : Nat) ()).1,
        (drainPackets oneLib (0 : Nat) ()).2.1,
        Ev.pkt () none :: (drainPackets oneLib (0 : Nat) ()).2.2)
    ∧ pcmOf (Ev.pkt () none :: (drainPackets oneLib (0 : Nat) ()).2.2) =
        pcmOf (drainPackets oneLib (0 : Nat) ()).2.2) :=
  ⟨rfl, rfl, failed_packet_skipped oneLib (1 : Nat) (0 : Nat) () () () rfl rfl⟩

/-- C6: the decode loop terminates on every finite input (`decodeLoop`
is defined by well-founded recursion: the Lean termination proof uses
only that pages and packets strictly consume buffered data) and the
orchestrator always reaches the Done state with a header-plus-payload
buffer — there is no error outcome in its result type — and when every
packet failed to decode the payload is empty, leaving the 44-byte header
describing zero PCM bytes. -/
theorem orchestrator_done (L : OggSpeex) (input : List Nat) :
    (∃ payload : List Nat,
        decode_spx_to_wav L input =
          headerBytes (write_wav_header L.sample_rate
            (Int.ofNat payload.length)) ++ payload)
    ∧ ((∀ e ∈ decodeEvents L input, frameOf e = none) →
        decode_spx_to_wav L input =
          headerBytes (write_wav_header L.sample_rate 0)) := by
  constructor
  · exact ⟨outputPcm L input, rfl⟩
  · intro hall
    have hpcm : outputPcm L input = [] := by
      rw [outputPcm, pcmOf_eq_nil (decodeEvents L input) hall]
      rfl
    rw [decode_spx_to_wav_eq_parts, hpcm, List.append_nil, outputHeader, hpcm]
    rfl

/-- C7: the chunked loop forwards the demultiplexer's output faithfully:
its full event trace equals the canonical trace in which all input bytes
are supplied and every extractable page is submitted and fully drained
in order.  Hence every extracted page is submitted to the (single)
logical stream, packets reach the frame decoder exactly in demultiplexer
order with none skipped, reordered or duplicated, and all currently
extractable pages and packets are drained before more input is
requested. -/
theorem packets_in_order (L : OggSpeex) (input : List Nat) :
    decodeEvents L input = canonEvents L input :=
  decodeEvents_canon L input

/-- C8: the chunk size the Input Chunk Feeder uses is not semantically
visible: for any two positive chunk sizes the whole returned buffer —
header and PCM payload — is byte-identical. -/
theorem chunk_size_irrelevant (L : OggSpeex) (c1 c2 : Nat)
    (input : List Nat) (h1 : 0 < c1) (h2 : 0 < c2) :
    decodeChunked L c1 input = decodeChunked L c2 input := by
  unfold decodeChunked
  rw [decodeChunkedEvents_canon L c1 h1 input,
    decodeChunkedEvents_canon L c2 h2 input]

/-- Witness for C8 at chunk sizes 1 and 4096 on a concrete input. -/
theorem chunk_size_irrelevant_witness :
    0 < 1 ∧ 0 < 4096 ∧
    decodeChunked trivLib 1 [0, 1, 2] = decodeChunked trivLib 4096 [0, 1, 2] :=
  ⟨Nat.one_pos, by omega,
    chunk_size_irrelevant trivLib 1 4096 [0, 1, 2] Nat.one_pos (by omega)⟩

/-- C9: `decode_spx_to_wav` is deterministic — all state it reads
(synchronization buffer, stream state, decoder state, PCM accumulator)
is created inside the call, so two calls on equal input bytes of equal
length return identical buffer contents and identical lengths. -/
theorem decode_deterministic (L : OggSpeex) (i1 i2 : List Nat)
    (h : i1 = i2) :
    decode_spx_to_wav L i1 = decode_spx_to_wav L i2
    ∧ (decode_spx_to_wav L i1).length = (decode_spx_to_wav L i2).length := by
  subst h
  exact ⟨rfl, rfl⟩

/-- Witness for C9 on a concrete input. -/
theorem decode_deterministic_witness :
    ([5, 6, 7] : List Nat) = [5, 6, 7] ∧
    (decode_spx_to_wav trivLib [5, 6, 7] = decode_spx_to_wav trivLib [5, 6, 7]
    ∧ (decode_spx_to_wav trivLib [5, 6, 7]).length =
        (decode_spx_to_wav trivLib [5, 6, 7]).length) :=
  ⟨rfl, decode_deterministic trivLib [5, 6, 7] [5, 6, 7] rfl⟩

/-- C10: the sample-rate field written into the output header — and the
byte-rate field derived from it — does not depend on the input bytes:
the decoder is initialized in wideband mode once per call and the rate
queried from that state (decoder_wrapper.c lines 71-74 and 137-139) is
fixed for the call's lifetime, so any two inputs receive the same
sample-rate and byte-rate values. -/
theorem sample_rate_input_independent (L : OggSpeex) (i1 i2 : List Nat) :
    (outputHeader L i1).sample_rate = (outputHeader L i2).sample_rate
    ∧ (outputHeader L i1).byte_rate = (outputHeader L i2).byte_rate :=
  ⟨rfl, rfl⟩

/-- Unfolding of `drainPackets` when no completed packet is pending. -/
theorem drainPackets_none (L : OggSpeex) (os : L.S) (d : L.D)
    (h : L.packetout os = none) : drainPackets L os d = (os, d, []) := by
  rw [drainPackets.eq_def]
  split
  · rfl
  · next p os2 h2 => rw [h] at h2; cases h2

/-- Unfolding of `drainPackets` when a packet comes out: hand it to the
decoder and continue with the successor states. -/
theorem drainPackets_step (L : OggSpeex) (os os2 : L.S) (d : L.D)
    (p : L.Pkt) (h1 : L.packetout os = some (p, os2)) :
    drainPackets L os d =
      ((drainPackets L os2 (L.decode d p).1).1,
       (drainPackets L os2 (L.decode d p).1).2.1,
       Ev.pkt p (L.decode d p).2 ::
         (drainPackets L os2 (L.decode d p).1).2.2) := by
  rw [drainPackets.eq_def]
  split
  · next h => rw [h1] at h; cases h
  · next p2 os3 h => rw [h1] at h; cases h; rfl

/-- A small fully concrete instance on which the pipeline produces
actual PCM: every buffered byte is a complete page carrying one packet
(that byte), and the decoder turns an even byte into the two-sample
frame [b, b] while an odd byte fails to decode. -/
def toyLib : OggSpeex where
  Page := Nat
  Pkt := Nat
  S := List Nat
  D := Unit
  pageout := fun buf =>
    match buf with
    | [] => none
    | b :: rest => some (b, rest)
  serialno := fun _ => 7
  stream_init := fun _ => []
  pagein := fun s pg => s ++ [pg]
  packetout := fun s =>
    match s with
    | [] => none
    | x :: rest => some (x, rest)
  streamMeasure := fun s => s.length
  decoder_init := ()
  frame_size := 2
  sample_rate := 16000
  decode := fun _ x =>
    ((), if x % 2 = 0 then some [Int.ofNat x, Int.ofNat x] else none)
  pageout_consumes := by
    intro buf pg rest h
    cases buf with
    | nil => cases h
    | cons b rest2 =>
      simp only [Option.some.injEq, Prod.mk.injEq] at h
      obtain ⟨-, rfl⟩ := h
      exact Nat.lt_succ_self rest2.length
  pageout_extends := by
    intro buf pg rest extra h
    cases buf with
    | nil => cases h
    | cons b rest2 =>
      simp only [Option.some.injEq, Prod.mk.injEq] at h
      obtain ⟨rfl, rfl⟩ := h
      rfl
  packetout_consumes := by
    intro s p s2 h
    cases s with
    | nil => cases h
    | cons x rest =>
      simp only [Option.some.injEq, Prod.mk.injEq] at h
      obtain ⟨-, rfl⟩ := h
      exact Nat.lt_succ_self rest.length
  decode_frame_size := by
    intro d p d2 f h
    simp only [Prod.mk.injEq] at h
    obtain ⟨-, h⟩ := h
    by_cases hp : p % 2 = 0
    · rw [if_pos hp] at h
      cases h
      rfl
    · rw [if_neg hp] at h
      cases h

/-- Concrete end-to-end evaluation: on `toyLib` with input [2, 5] the
pipeline submits two pages, decodes packet 2 into the frame [2, 2],
fails on packet 5, and returns the header for 4 PCM bytes followed by
the little-endian samples.  This exercises the successful-decode path of
every theorem above. -/
theorem toy_pipeline_sanity :
    canonEvents toyLib [2, 5] =
      [Ev.page (2 : Nat), Ev.pkt (2 : Nat) (some [2, 2]),
       Ev.page (5 : Nat), Ev.pkt (5 : Nat) none]
    ∧ outputPcm toyLib [2, 5] = [2, 0, 2, 0]
    ∧ numOk (decodeEvents toyLib [2, 5]) = 1
    ∧ decode_spx_to_wav toyLib [2, 5] =
        headerBytes (write_wav_header 16000 4) ++ [2, 0, 2, 0] := by
  have hdp2 : drainPackets toyLib ([2] : List Nat) () =
      (([] : List Nat), (), [Ev.pkt (2 : Nat) (some [2, 2])]) := by
    rw [drainPackets_step toyLib ([2] : List Nat) ([] : List Nat) ()
      (2 : Nat) rfl]
    rw [drainPackets_none toyLib ([] : List Nat)
      (toyLib.decode () (2 : Nat)).1 rfl]
    rfl
  have hdp5 : drainPackets toyLib ([5] : List Nat) () =
      (([] : List Nat), (), [Ev.pkt (5 : Nat) none]) := by
    rw [drainPackets_step toyLib ([5] : List Nat) ([] : List Nat) ()
      (5 : Nat) rfl]
    rw [drainPackets_none toyLib ([] : List Nat)
      (toyLib.decode () (5 : Nat)).1 rfl]
    rfl
  have hps2 : pageStep toyLib (2 : Nat) none () =
      (([] : List Nat), (),
        [Ev.page (2 : Nat), Ev.pkt (2 : Nat) (some [2, 2])]) := by
    unfold pageStep
    rw [show toyLib.pagein (streamAt toyLib none (2 : Nat)) (2 : Nat) =
      ([2] : List Nat) from rfl]
    rw [hdp2]
  have hps5 : pageStep toyLib (5 : Nat) (some ([] : List Nat)) () =
      (([] : List Nat), (), [Ev.page (5 : Nat), Ev.pkt (5 : Nat) none]) := by
    unfold pageStep
    rw [show toyLib.pagein (streamAt toyLib (some ([] : List Nat)) (5 : Nat))
      (5 : Nat) = ([5] : List Nat) from rfl]
    rw [hdp5]
  have hcanon : canonEvents toyLib [2, 5] =
      [Ev.page (2 : Nat), Ev.pkt (2 : Nat) (some [2, 2]),
       Ev.page (5 : Nat), Ev.pkt (5 : Nat) none] := by
    unfold canonEvents
    rw [show toyLib.decoder_init = () from rfl]
    rw [drainPages_some toyLib [2, 5] none () (2 : Nat) [5] rfl]
    rw [hps2]
    rw [drainPages_some toyLib [5] (some ([] : List Nat)) () (5 : Nat) []
      rfl]
    rw [hps5]
    rw [drainPages_none toyLib ([] : List Nat) (some ([] : List Nat)) ()
      (pageout_nil toyLib)]
    rfl
  have hev : decodeEvents toyLib [2, 5] =
      [Ev.page (2 : Nat), Ev.pkt (2 : Nat) (some [2, 2]),
       Ev.page (5 : Nat), Ev.pkt (5 : Nat) none] := by
    rw [decodeEvents_canon, hcanon]
  have hpcm : outputPcm toyLib [2, 5] = [2, 0, 2, 0] := by
    rw [outputPcm, hev]
    rfl
  refine ⟨hcanon, hpcm, ?_, ?_⟩
  · rw [hev]
    rfl
  · rw [decode_spx_to_wav_eq_parts, outputHeader, hpcm]
    rfl
